import Mathlib

/-!
# Verification of the chat streaming core of stock-ai-ultra

This file gives a shallow embedding, in Lean 4, of the chat streaming path of
the repository:

* the SSE decoding client `streamChat` (src/lib/api.ts, lines 51-97),
* the chat gateway, the `POST /api/chat` handler of `registerRoutes`
  (server routes file, lines 180-254),
* the simulated stock data module (src/server/stockData.ts).

Modelling conventions, used throughout:

* JavaScript strings are modelled as sequences of Unicode scalar values
  (`List Char` at the protocol level, `String` for payload texts).  Lone
  UTF-16 surrogates are outside the model; a `\uXXXX` escape denoting a lone
  surrogate decodes to U+FFFD.
* The byte stream between gateway and client is modelled at character
  granularity: `TextDecoder.decode(value, {stream: true})` converts an
  arbitrary byte partition into a character partition, so a reader-chunk
  partition is a `List (List Char)` whose join is the whole stream.
* JavaScript numbers are modelled as exact rationals (`ℚ`): the claims under
  verification never depend on IEEE-754 rounding.  `Math.sin` and the ambient
  clock `Date.now()` are host primitives, not repository code; they enter the
  embedding as explicit parameters (`jsSin : ℚ → ℚ`, `now : ℚ`), and JS
  number-to-string rendering enters as explicit parameters `render`/`fixed1`.
* `JSON.parse` and `JSON.stringify` are host primitives with a precise
  language definition; they are embedded as an executable parser
  (`parseJson`) and an escaper (`stringifyStr`) faithful to the JSON grammar
  JavaScript implements (including the leading-zero rule for numbers, the
  rejection of raw control characters in strings, and last-wins duplicate
  object keys).
-/

namespace StockAI

/-- A parsed JSON value, as produced by `JSON.parse`.  Numbers are exact
rationals; object member lists keep source order (duplicate keys are kept,
and property lookup takes the last occurrence, as in JavaScript). -/
inductive Json where
  | null
  | bool (b : Bool)
  | num (q : ℚ)
  | str (s : String)
  | arr (items : List Json)
  | obj (members : List (String × Json))

/-- The opening brace character (written numerically so that brace glyphs do
not occur in the source text of this file). -/
def obr : Char := Char.ofNat 123

/-- The closing brace character. -/
def cbr : Char := Char.ofNat 125

/-- JSON insignificant whitespace: space, tab, line feed, carriage return. -/
def jsonWs (c : Char) : Bool :=
  decide (c.toNat = 32 ∨ c.toNat = 9 ∨ c.toNat = 10 ∨ c.toNat = 13)

/-- Drop leading JSON whitespace. -/
def wsSkip : List Char → List Char
  | c :: cs => if jsonWs c then wsSkip cs else c :: cs
  | [] => []

/-- ASCII decimal digit test. -/
def digitChar (c : Char) : Bool := '0' ≤ c && c ≤ '9'

/-- Value of a hexadecimal digit character, either case (digits sit at
code points 48-57, lower-case letters at 97-102, upper-case at 65-70). -/
def hexVal (c : Char) : Option Nat :=
  let n := c.toNat
  if 48 ≤ n ∧ n ≤ 57 then some (n - 48)
  else if 97 ≤ n ∧ n ≤ 102 then some (n - 87)
  else if 65 ≤ n ∧ n ≤ 70 then some (n - 55)
  else none

/-- Value of a four-hex-digit group, as in a `\uXXXX` escape. -/
def hexQuad (a b c d : Char) : Option Nat :=
  match hexVal a, hexVal b, hexVal c, hexVal d with
  | some x, some y, some z, some w => some (4096 * x + 256 * y + 16 * z + w)
  | _, _, _, _ => none

/-- Decoding of a single-character JSON string escape (`\"`, `\\`, `\/`,
`\b`, `\f`, `\n`, `\r`, `\t`). -/
def escDecode (c : Char) : Option Char :=
  if c = '"' then some '"'
  else if c = '\\' then some '\\'
  else if c = '/' then some '/'
  else if c = 'b' then some (Char.ofNat 8)
  else if c = 'f' then some (Char.ofNat 12)
  else if c = 'n' then some '\n'
  else if c = 'r' then some '\r'
  else if c = 't' then some '\t'
  else none

/-- The Unicode replacement character, standing in for lone surrogates
(which a Unicode-scalar string model cannot carry). -/
def replChar : Char := Char.ofNat 0xFFFD

/-- First phase of JSON string-literal decoding: after the opening quote,
turn the body into a list of code points (escapes decoded, `\uXXXX` taken
literally as its 16-bit value), returning them with the input remaining
after the closing quote.  Raw control characters below U+0020 are rejected,
as `JSON.parse` rejects them. -/
def strTokens : List Char → Option (List Nat × List Char)
  | [] => none
  | c :: cs =>
    if c = '"' then some ([], cs)
    else if c = '\\' then
      match cs with
      | 'u' :: a :: b :: c3 :: d :: cs3 =>
        match hexQuad a b c3 d with
        | none => none
        | some n => (strTokens cs3).map (fun r => (n :: r.1, r.2))
      | e :: cs2 =>
        match escDecode e with
        | none => none
        | some ch => (strTokens cs2).map (fun r => (ch.toNat :: r.1, r.2))
      | [] => none
    else if c.toNat < 0x20 then none
    else (strTokens cs).map (fun r => (c.toNat :: r.1, r.2))

/-- Second phase of JSON string-literal decoding: combine a `\uXXXX` high
surrogate followed by a low surrogate into one Unicode scalar, as
`JSON.parse` does; a lone surrogate becomes U+FFFD (see the module
comment).  Code points from literal characters or single-character escapes
are never in the surrogate range, so they pass through unchanged. -/
def pairAux : Nat → List Nat → List Char
  | 0, _ => []
  | _ + 1, [] => []
  | f + 1, n :: rest =>
    if 0xD800 ≤ n ∧ n ≤ 0xDBFF then
      match rest with
      | m :: rest2 =>
        if 0xDC00 ≤ m ∧ m ≤ 0xDFFF then
          Char.ofNat (0x10000 + (n - 0xD800) * 0x400 + (m - 0xDC00)) :: pairAux f rest2
        else replChar :: pairAux f rest
      | [] => [replChar]
    else if 0xDC00 ≤ n ∧ n ≤ 0xDFFF then replChar :: pairAux f rest
    else Char.ofNat n :: pairAux f rest

/-- Surrogate pairing over a whole token list (`pairAux` driven by a
sufficient step count: each step consumes at least one token). -/
def pairSurrogates (ts : List Nat) : List Char := pairAux ts.length ts

/-- Parse the body of a JSON string literal, after the opening quote, up to
and including the closing quote: decoded characters plus the remaining
input. -/
def strBody (cs : List Char) : Option (List Char × List Char) :=
  (strTokens cs).map (fun r => (pairSurrogates r.1, r.2))
/-- Leading run of decimal digits, and the rest. -/
def digitSpan : List Char → List Char × List Char
  | c :: cs =>
    if digitChar c then
      let r := digitSpan cs
      (c :: r.1, r.2)
    else ([], c :: cs)
  | [] => ([], [])

/-- Natural number denoted by a digit run. -/
def digitsVal (ds : List Char) : Nat :=
  ds.foldl (fun acc c => acc * 10 + (c.toNat - '0'.toNat)) 0

/-- Parse a JSON number (sign, integer part with the no-leading-zero rule,
optional fraction, optional exponent) into an exact rational. -/
def parseNumber (cs : List Char) : Option (ℚ × List Char) :=
  let sign : ℚ × List Char :=
    match cs with
    | '-' :: r => (-1, r)
    | _ => (1, cs)
  let ipart : Option (Nat × List Char) :=
    match sign.2 with
    | '0' :: r => some (0, r)
    | c :: r =>
      if digitChar c then
        let s := digitSpan r
        some (digitsVal (c :: s.1), s.2)
      else none
    | [] => none
  match ipart with
  | none => none
  | some (ival, r1) =>
    let fpart : Option (ℚ × List Char) :=
      match r1 with
      | '.' :: r2 =>
        let s := digitSpan r2
        if s.1.isEmpty then none
        else some ((digitsVal s.1 : ℚ) / (10 : ℚ) ^ s.1.length, s.2)
      | _ => some (0, r1)
    match fpart with
    | none => none
    | some (fval, r2) =>
      let epart : Option (ℚ × List Char) :=
        match r2 with
        | 'e' :: r3 | 'E' :: r3 =>
          let se : Bool × List Char :=
            match r3 with
            | '+' :: r4 => (false, r4)
            | '-' :: r4 => (true, r4)
            | _ => (false, r3)
          let s := digitSpan se.2
          if s.1.isEmpty then none
          else
            let e : ℚ := (10 : ℚ) ^ digitsVal s.1
            some (if se.1 then 1 / e else e, s.2)
        | _ => some (1, r2)
      match epart with
      | none => none
      | some (scale, r3) => some (sign.1 * ((ival : ℚ) + fval) * scale, r3)

mutual

/-- Parse one JSON value (after optional whitespace), returning it with the
remaining input.  `fuel` only bounds the recursion; the top-level wrapper
`parseJson` supplies enough for any input. -/
def parseVal : Nat → List Char → Option (Json × List Char)
  | 0, _ => none
  | fuel + 1, cs =>
    match wsSkip cs with
    | [] => none
    | c :: rest =>
      if c = obr then
        match wsSkip rest with
        | [] => none
        | c2 :: rest2 =>
          if c2 = cbr then some (.obj [], rest2)
          else (parseMembers fuel (c2 :: rest2)).map (fun r => (.obj r.1, r.2))
      else if c = '[' then
        match wsSkip rest with
        | [] => none
        | c2 :: rest2 =>
          if c2 = ']' then some (.arr [], rest2)
          else (parseItems fuel (c2 :: rest2)).map (fun r => (.arr r.1, r.2))
      else if c = '"' then
        (strBody rest).map (fun r => (.str (String.mk r.1), r.2))
      else if c = 'n' then
        match rest with
        | 'u' :: 'l' :: 'l' :: r => some (.null, r)
        | _ => none
      else if c = 't' then
        match rest with
        | 'r' :: 'u' :: 'e' :: r => some (.bool true, r)
        | _ => none
      else if c = 'f' then
        match rest with
        | 'a' :: 'l' :: 's' :: 'e' :: r => some (.bool false, r)
        | _ => none
      else
        (parseNumber (c :: rest)).map (fun r => (.num r.1, r.2))

/-- Parse one or more comma-separated object members up to the closing
brace (the empty object is handled in `parseVal`). -/
def parseMembers : Nat → List Char → Option (List (String × Json) × List Char)
  | 0, _ => none
  | fuel + 1, cs =>
    match wsSkip cs with
    | '"' :: r =>
      match strBody r with
      | none => none
      | some (key, r1) =>
        match wsSkip r1 with
        | ':' :: r2 =>
          match parseVal fuel r2 with
          | none => none
          | some (v, r3) =>
            match wsSkip r3 with
            | ',' :: r4 =>
              (parseMembers fuel r4).map (fun r5 => ((String.mk key, v) :: r5.1, r5.2))
            | c5 :: r4 =>
              if c5 = cbr then some ([(String.mk key, v)], r4) else none
            | [] => none
        | _ => none
    | _ => none

/-- Parse one or more comma-separated array items up to the closing bracket
(the empty array is handled in `parseVal`). -/
def parseItems : Nat → List Char → Option (List Json × List Char)
  | 0, _ => none
  | fuel + 1, cs =>
    match parseVal fuel cs with
    | none => none
    | some (v, r) =>
      match wsSkip r with
      | ',' :: r2 => (parseItems fuel r2).map (fun r3 => (v :: r3.1, r3.2))
      | ']' :: r2 => some ([v], r2)
      | _ => none

end

/-- The embedding of `JSON.parse`: parse a complete JSON document; fail on
trailing non-whitespace.  `JSON.parse` throwing is modelled as `none`. -/
def parseJson (cs : List Char) : Option Json :=
  match parseVal (2 * cs.length + 2) cs with
  | none => none
  | some (j, r) => if (wsSkip r).isEmpty then some j else none

/-- JavaScript property read `j.k` on a parsed JSON value: only objects have
own properties; with duplicate keys the last occurrence wins.  `none` models
`undefined` (and the `TypeError` thrown by a read on `null`, which the
client swallows in its `catch`). -/
def jGet (j : Json) (k : String) : Option Json :=
  match j with
  | .obj ms => ms.foldl (fun acc kv => if kv.1 = k then some kv.2 else acc) none
  | _ => none

/-- JavaScript truthiness of a possibly-absent value: `undefined`, `null`,
`false`, `0`, and the empty string are falsy; any object or array is
truthy. -/
def jTruthy : Option Json → Bool
  | none => false
  | some .null => false
  | some (.bool b) => b
  | some (.num q) => q != 0
  | some (.str s) => s != ""
  | some (.arr _) => true
  | some (.obj _) => true

/-- Lower-case hexadecimal digit character for `n < 16`. -/
def hexDig (n : Nat) : Char :=
  if n < 10 then Char.ofNat ('0'.toNat + n) else Char.ofNat ('a'.toNat + (n - 10))

/-- `JSON.stringify` escaping of one string character: quote and backslash
get a backslash escape, the named control characters get their short
escapes, the remaining control characters below U+0020 get `\u00XX`, and
every other character is emitted literally. -/
def escChar (c : Char) : List Char :=
  if c = '"' then ['\\', '"']
  else if c = '\\' then ['\\', '\\']
  else if c = Char.ofNat 8 then ['\\', 'b']
  else if c = '\t' then ['\\', 't']
  else if c = '\n' then ['\\', 'n']
  else if c = Char.ofNat 12 then ['\\', 'f']
  else if c = '\r' then ['\\', 'r']
  else if c.toNat < 0x20 then
    ['\\', 'u', '0', '0', hexDig (c.toNat / 16), hexDig (c.toNat % 16)]
  else [c]

/-- `JSON.stringify` of a string value: a quoted, escaped literal. -/
def stringifyStr (s : String) : List Char :=
  '"' :: (s.data.flatMap escChar ++ ['"'])

/-- `JSON.stringify` of the single-field object the gateway builds with a
string field, e.g. the argument of `res.write` for a content or error
frame before the `data: ` marker is prepended. -/
def stringifyStrField (key : String) (v : String) : List Char :=
  obr :: ('"' :: (key.data ++ ['"', ':'] ++ stringifyStr v ++ [cbr]))

/-- One SSE frame as the gateway writes it: the `data: ` marker, a JSON
document, and the two trailing newlines. -/
def frameOf (payload : List Char) : List Char :=
  "data: ".data ++ payload ++ ['\n', '\n']

/-- The frame `res.write` emits for a non-empty provider fragment:
`data: ` + `JSON.stringify(\x7b content \x7d)` + two newlines. -/
def contentFrame (f : String) : List Char :=
  frameOf (stringifyStrField "content" f)

/-- `JSON.stringify(\x7b done: true \x7d)`, the payload of the terminal
frame written on normal completion. -/
def doneBody : List Char :=
  obr :: ('"' :: ("done".data ++ ['"', ':'] ++ "true".data ++ [cbr]))

/-- The terminal frame written on normal completion:
`data: ` + `JSON.stringify(\x7b done: true \x7d)` + two newlines. -/
def doneFrame : List Char := frameOf doneBody

/-- The terminal frame written from the catch branch once headers are sent:
`data: ` + `JSON.stringify(\x7b error \x7d)` + two newlines. -/
def errorFrame (msg : String) : List Char :=
  frameOf (stringifyStrField "error" msg)

/-! ## The stream client (`streamChat`, src/lib/api.ts lines 51-97)

The client reads chunks, accumulates a partial-line buffer, splits on
newlines holding back the final fragment, and dispatches each complete
line.  Callbacks are recorded in order as a list: `onChunk`/`onError` carry
the JavaScript value the code passes (`data.content` / `data.error`). -/

/-- One observable callback invocation of `streamChat`. -/
inductive Callback where
  | chunk (v : Json)
  | done
  | error (v : Json)

/-- `String.prototype.split('\n')`: the (always non-empty) list of
newline-separated segments. -/
def splitNl : List Char → List (List Char)
  | [] => [[]]
  | c :: cs =>
    if c = '\n' then [] :: splitNl cs
    else
      match splitNl cs with
      | l :: ls => (c :: l) :: ls
      | [] => [[c]]

/-- What processing one complete line does: nothing, a non-terminal
callback, or a terminal callback that ends the whole read (the `return`
inside the dispatch). -/
inductive LineAct where
  | skip
  | emit (c : Callback)
  | stop (c : Callback)

/-- Dispatch of one complete line, mirroring the loop body: lines without
the `data: ` marker are skipped; the remainder is `JSON.parse`d inside a
`try` whose `catch` skips the line; then `data.done`, `data.error`,
`data.content` are tested for truthiness in that order. -/
def procLine (line : List Char) : LineAct :=
  if line.take 6 = "data: ".data then
    match parseJson (line.drop 6) with
    | none => .skip
    | some j =>
      if jTruthy (jGet j "done") then .stop .done
      else if jTruthy (jGet j "error") then .stop (.error ((jGet j "error").getD .null))
      else if jTruthy (jGet j "content") then .emit (.chunk ((jGet j "content").getD .null))
      else .skip
  else .skip

/-- Process a list of complete lines: the callbacks they produce, and
whether a terminal dispatch ended the read (discarding later lines). -/
def runLines : List (List Char) → List Callback × Bool
  | [] => ([], false)
  | l :: ls =>
    match procLine l with
    | .skip => runLines ls
    | .emit c =>
      let r := runLines ls
      (c :: r.1, r.2)
    | .stop c => ([c], true)

/-- The read loop of `streamChat`: per reader chunk, append to the buffer,
split on newlines, hold the final segment back as the new buffer, and
dispatch the complete lines; a terminal dispatch returns at once.  When the
reader reports end of stream the loop breaks and `onDone()` runs (any
buffered partial line is discarded). -/
def streamLoop : List (List Char) → List Char → List Callback
  | [], _buffer => [.done]
  | ch :: chs, buffer =>
    let parts := splitNl (buffer ++ ch)
    let r := runLines parts.dropLast
    if r.2 then r.1
    else r.1 ++ streamLoop chs ((parts.getLast?).getD [])

/-- The embedding of `streamChat` (src/lib/api.ts): `resOk` is whether the
transport-level response was successful (`res.ok` with a readable body);
`chunks` is the partition of the response byte stream that the reader
delivers.  The result is the ordered list of callback invocations. -/
def streamChat (resOk : Bool) (chunks : List (List Char)) : List Callback :=
  if resOk then streamLoop chunks []
  else [.error (.str "Failed to connect to AI")]

/-! ## The stock data module (src/server/stockData.ts)

`Math.sin` is a host primitive over floats; it enters as the parameter
`jsSin : ℚ → ℚ`.  `Date.now()` enters as the parameter `now : ℚ`.
`Math.round` is `⌊x + 1/2⌋`, `Math.floor` is `⌊x⌋`; arithmetic is exact
rational arithmetic (see the module comment). -/

/-- Static data of one symbol in the `STOCKS` table. -/
structure StockInfo where
  name : String
  sector : String
  basePrice : ℚ

/-- The fixed `STOCKS` table, in source (insertion) order; `Object.keys`
enumerates string keys in this order. -/
def STOCKS : List (String × StockInfo) :=
  [("AAPL", ⟨"Apple Inc.", "Technology", 198.50⟩),
   ("MSFT", ⟨"Microsoft Corp.", "Technology", 428.80⟩),
   ("GOOGL", ⟨"Alphabet Inc.", "Technology", 175.20⟩),
   ("AMZN", ⟨"Amazon.com Inc.", "Consumer Cyclical", 197.30⟩),
   ("NVDA", ⟨"NVIDIA Corp.", "Technology", 135.40⟩),
   ("TSLA", ⟨"Tesla Inc.", "Consumer Cyclical", 248.90⟩),
   ("META", ⟨"Meta Platforms Inc.", "Technology", 520.10⟩),
   ("JPM", ⟨"JPMorgan Chase & Co.", "Financial Services", 205.60⟩),
   ("V", ⟨"Visa Inc.", "Financial Services", 285.40⟩),
   ("JNJ", ⟨"Johnson & Johnson", "Healthcare", 156.80⟩),
   ("WMT", ⟨"Walmart Inc.", "Consumer Defensive", 172.30⟩),
   ("PG", ⟨"Procter & Gamble Co.", "Consumer Defensive", 168.90⟩),
   ("UNH", ⟨"UnitedHealth Group Inc.", "Healthcare", 532.40⟩),
   ("HD", ⟨"Home Depot Inc.", "Consumer Cyclical", 370.20⟩),
   ("BAC", ⟨"Bank of America Corp.", "Financial Services", 39.80⟩),
   ("DIS", ⟨"Walt Disney Co.", "Communication Services", 112.50⟩),
   ("NFLX", ⟨"Netflix Inc.", "Communication Services", 685.30⟩),
   ("AMD", ⟨"Advanced Micro Devices", "Technology", 162.70⟩),
   ("CRM", ⟨"Salesforce Inc.", "Technology", 268.40⟩),
   ("INTC", ⟨"Intel Corp.", "Technology", 31.20⟩),
   ("PYPL", ⟨"PayPal Holdings Inc.", "Financial Services", 72.80⟩),
   ("UBER", ⟨"Uber Technologies Inc.", "Technology", 78.50⟩),
   ("SQ", ⟨"Block Inc.", "Technology", 85.60⟩),
   ("SNAP", ⟨"Snap Inc.", "Communication Services", 16.40⟩),
   ("COIN", ⟨"Coinbase Global Inc.", "Financial Services", 258.90⟩)]

/-- `STOCKS[key]` property lookup: first (equivalently only, the keys being
distinct) binding of the key. -/
def stockLookup (key : String) : Option StockInfo :=
  (STOCKS.find? (fun kv => kv.1 = key)).map Prod.snd

/-- `getAllSymbols` (stockData.ts lines 122-124): `Object.keys(STOCKS)`. -/
def getAllSymbols : List String := STOCKS.map Prod.fst

/-- `Math.round`: round half away from zero upward, `⌊x + 1/2⌋`. -/
def jsRound (x : ℚ) : ℤ := ⌊x + 1 / 2⌋

/-- `Math.round(x * 100) / 100`, the two-decimal rounding the module uses
everywhere. -/
def round2 (x : ℚ) : ℚ := (jsRound (x * 100) : ℚ) / 100

/-- `getVariation` (stockData.ts lines 29-32): fractional part of
`Math.sin(seed) * 10000`, in `[0, 1)`. -/
def getVariation (jsSin : ℚ → ℚ) (seed : ℚ) : ℚ :=
  let x := jsSin seed * 10000
  x - ⌊x⌋

/-- `symbol.charCodeAt(0)` as a rational.  On the empty string
`charCodeAt(0)` is `NaN`; the module only reaches it for table keys, which
are non-empty, so the model maps that unreached case to `0`. -/
def charCode0 (s : String) : ℚ :=
  match s.data with
  | [] => 0
  | c :: _ => (c.toNat : ℚ)

/-- The model of `String.prototype.toUpperCase` on one character, on the
ASCII range (all table symbols and their case variants are ASCII). -/
def upChar (c : Char) : Char :=
  if 97 ≤ c.toNat ∧ c.toNat ≤ 122 then Char.ofNat (c.toNat - 32) else c

/-- The model of `String.prototype.toUpperCase` (ASCII range). -/
def jsUpper (s : String) : String := String.mk (s.data.map upChar)

/-- `getStockPrice` (stockData.ts lines 34-41): base price jittered by a
minute-bucketed, symbol-seeded variation, rounded to cents. -/
def getStockPrice (jsSin : ℚ → ℚ) (now : ℚ) (symbol : String) : ℚ :=
  match stockLookup symbol with
  | none => 0
  | some stock =>
    let variation := getVariation jsSin (now / 60000 + charCode0 symbol)
    let pctChange := (variation - 0.5) * 0.06
    round2 (stock.basePrice * (1 + pctChange))

/-- The quote record `getStockQuote` returns. -/
structure Quote where
  symbol : String
  name : String
  sector : String
  price : ℚ
  change : ℚ
  changePercent : ℚ
  previousClose : ℚ
  opening : ℚ
  dayHigh : ℚ
  dayLow : ℚ
  volume : ℤ
  marketCap : ℤ
  pe : ℚ
  eps : ℚ
  dividendYield : ℚ
  week52High : ℚ
  week52Low : ℚ

/-- `getStockQuote` (stockData.ts lines 43-76): `null` (here `none`) for a
symbol whose uppercasing is not a table key; otherwise a fully populated
quote derived from the base price and the time-seeded variations. -/
def getStockQuote (jsSin : ℚ → ℚ) (now : ℚ) (symbol : String) : Option Quote :=
  match stockLookup (jsUpper symbol) with
  | none => none
  | some stock =>
    let sym := jsUpper symbol
    let price := getStockPrice jsSin now sym
    let prevClose := stock.basePrice
    let change := round2 (price - prevClose)
    let changePercent := (jsRound (change / prevClose * 10000) : ℚ) / 100
    let dayVar := getVariation jsSin (now / 3600000 + charCode0 sym)
    let volume := jsRound ((5 + dayVar * 45) * 1000000)
    let marketCap := jsRound (price * ((volume : ℚ) * 100 + 1000000000))
    some
      { symbol := sym
        name := stock.name
        sector := stock.sector
        price := price
        change := change
        changePercent := changePercent
        previousClose := prevClose
        opening := round2 (prevClose + (price - prevClose) * 0.3)
        dayHigh := round2 (max price prevClose * 1.012)
        dayLow := round2 (min price prevClose * 0.988)
        volume := volume
        marketCap := marketCap
        pe := round2 (15 + dayVar * 30)
        eps := round2 (price / (15 + dayVar * 30))
        dividendYield := round2 (dayVar * 3)
        week52High := round2 (price * 1.25)
        week52Low := round2 (price * 0.72) }

/-- One market index record of `getMarketIndices`. -/
structure MarketIndex where
  name : String
  value : ℚ
  change : ℚ
  changePercent : ℚ

/-- `getMarketIndices` (stockData.ts lines 98-120): the fixed three-index
list with time-seeded jitter. -/
def getMarketIndices (jsSin : ℚ → ℚ) (now : ℚ) : List MarketIndex :=
  [{ name := "S&P 500"
     value := round2 (5420 + (getVariation jsSin (now / 60000) - 0.5) * 80)
     change := round2 ((getVariation jsSin (now / 60000 + 1) - 0.5) * 40)
     changePercent := round2 ((getVariation jsSin (now / 60000 + 1) - 0.5) * 0.8) },
   { name := "NASDAQ"
     value := round2 (17180 + (getVariation jsSin (now / 60000 + 2) - 0.5) * 200)
     change := round2 ((getVariation jsSin (now / 60000 + 3) - 0.5) * 120)
     changePercent := round2 ((getVariation jsSin (now / 60000 + 3) - 0.5) * 0.9) },
   { name := "DOW"
     value := round2 (39850 + (getVariation jsSin (now / 60000 + 4) - 0.5) * 300)
     change := round2 ((getVariation jsSin (now / 60000 + 5) - 0.5) * 200)
     changePercent := round2 ((getVariation jsSin (now / 60000 + 5) - 0.5) * 0.6) }]

/-! ## The chat gateway (`POST /api/chat`, server routes lines 180-254)

JS number-to-string conversion in template literals enters the model as the
parameter `render : ℚ → String`, and `Number.prototype.toFixed(1)` as
`fixed1 : ℚ → String`; no verified claim depends on their output. -/

/-- The symbols the handler treats as mentioned: every table symbol that is
a substring of the uppercased message (routes lines 185-188). -/
def mentionedStocks (message : String) : List String :=
  getAllSymbols.filter (fun s => decide (s.data <:+: (jsUpper message).data))

/-- The compact quote summary line the handler builds per mentioned symbol
(routes line 193). -/
def quoteLine (render fixed1 : ℚ → String) (q : Quote) : String :=
  q.symbol ++ ": $" ++ render q.price ++ " (" ++
    (if q.change ≥ 0 then "+" else "") ++ render q.changePercent ++
    "%), Volume: " ++ fixed1 ((q.volume : ℚ) / 1000000) ++ "M, P/E: " ++
    render q.pe ++ ", Market Cap: $" ++ fixed1 ((q.marketCap : ℚ) / 1000000000) ++ "B"

/-- The per-symbol summary lines: one `quoteLine` per mentioned symbol whose
quote exists, the `''` of a missing quote dropped by `.filter(Boolean)`
(routes lines 191-194). -/
def quoteLines (jsSin : ℚ → ℚ) (now : ℚ) (render fixed1 : ℚ → String)
    (message : String) : List String :=
  ((mentionedStocks message).map (fun s =>
      match getStockQuote jsSin now s with
      | some q => quoteLine render fixed1 q
      | none => "")).filter (fun t => t ≠ "")

/-- `stockContext` (routes lines 189-196): empty when no symbol is
mentioned, otherwise a header plus the newline-joined quote lines. -/
def stockContext (jsSin : ℚ → ℚ) (now : ℚ) (render fixed1 : ℚ → String)
    (message : String) : String :=
  if 0 < (mentionedStocks message).length then
    "\n\nCurrent market data:\n" ++
      String.intercalate "\n" (quoteLines jsSin now render fixed1 message)
  else ""

/-- `indexContext` (routes lines 198-199): the comma-joined market index
summaries, built regardless of the message. -/
def indexContext (jsSin : ℚ → ℚ) (now : ℚ) (render : ℚ → String) : String :=
  String.intercalate ", " ((getMarketIndices jsSin now).map (fun i =>
    i.name ++ ": " ++ render i.value ++ " (" ++
      (if i.change ≥ 0 then "+" else "") ++ render i.changePercent ++ "%)"))

/-- The fixed text of the system instruction before the index context. -/
def sysIntro : String :=
  "You are StockAI, an expert financial analyst and stock market advisor. You provide insightful analysis of stocks, market trends, and investment strategies.\n\nCurrent market indices: "

/-- The fixed text of the system instruction after the enrichment block. -/
def sysOutro : String :=
  "\n\nWhen analyzing stocks, provide:\n1. A brief summary of the stock's current position\n2. A clear BUY, HOLD, or SELL recommendation\n3. A confidence percentage (e.g., 75%)\n4. Risk level (Low, Medium, High)\n5. Simple explanation of your reasoning\n6. Always include a disclaimer that this is AI-generated analysis, not financial advice\n\nKeep responses concise and well-structured. Use bullet points for clarity. Be specific with data points."

/-- The content of the system message sent upstream (routes lines
205-221): fixed persona text with the index context and the stock context
interpolated. -/
def systemContent (jsSin : ℚ → ℚ) (now : ℚ) (render fixed1 : ℚ → String)
    (message : String) : String :=
  sysIntro ++ indexContext jsSin now render ++
    stockContext jsSin now render fixed1 message ++ sysOutro

/-- The events of the chat stream, the spec's `StreamEvent` union. -/
inductive StreamEvent where
  | content (text : String)
  | done
  | error (msg : String)
deriving DecidableEq

/-- The frame a `StreamEvent` is written as. -/
def encodeEvent : StreamEvent → List Char
  | .content f => contentFrame f
  | .done => doneFrame
  | .error m => errorFrame m

/-- How the provider stream ends in a given run: normal completion of the
`for await` loop, or a failure thrown into the `catch` branch after the
listed fragments were yielded. -/
inductive ProviderEnd where
  | normal
  | failure

/-- The frames the streaming loop writes for the provider's fragments
(routes lines 236-241): each chunk's `delta.content || \"\"` is a fragment;
only truthy (non-empty) fragments are written, one frame each, in order. -/
def gatewayWrites (frags : List String) : List (List Char) :=
  frags.filterMap (fun f => if f = "" then none else some (contentFrame f))

/-- The whole response body on normal completion: the content frames, then
the single `done` frame (routes lines 236-244). -/
def gatewayBody (frags : List String) : List Char :=
  (gatewayWrites frags).flatten ++ doneFrame

/-- A chat request's outcome at the HTTP level: a synchronous JSON error
response (status and message), or an event-stream body. -/
inductive ChatResponse where
  | syncError (status : Nat) (errmsg : String)
  | stream (body : List Char)
deriving DecidableEq

/-- The embedding of the `POST /api/chat` handler (routes lines 180-254).
`message` is the request's message string (`!message` is JS string
falsiness, i.e. emptiness); `frags` are the provider fragments yielded
before the stream ends as `outcome` says.  Headers are sent by the first
`res.write`, so a failure with nothing written yet lands in the
synchronous 500 branch of the `catch`, and one with partial output written
appends the single error frame. -/
def chatHandler (message : String) (frags : List String) (outcome : ProviderEnd) :
    ChatResponse :=
  if message = "" then .syncError 400 "Message required"
  else
    match outcome with
    | .normal => .stream (gatewayBody frags)
    | .failure =>
      if (gatewayWrites frags).flatten = [] then .syncError 500 "Failed to process chat"
      else .stream ((gatewayWrites frags).flatten ++ errorFrame "AI service error")

/-- The non-terminal events of a run: one `content` event per non-empty
fragment, in order. -/
def contentEvents (frags : List String) : List StreamEvent :=
  (frags.filter (fun f => f ≠ "")).map .content

/-- The `StreamEvent` sequence a request emits, when it streams at all
(`none`: the request answered with a synchronous error and emitted no
frames).  This is the frame-level reading of `chatHandler`:
`chatBody_eq_encode` below proves the stream body is exactly the encoding
of this event list. -/
def chatEvents (message : String) (frags : List String) (outcome : ProviderEnd) :
    Option (List StreamEvent) :=
  if message = "" then none
  else
    match outcome with
    | .normal => some (contentEvents frags ++ [.done])
    | .failure =>
      if (gatewayWrites frags).flatten = [] then none
      else some (contentEvents frags ++ [.error "AI service error"])

/-- Terminal events: `done` and `error` end a stream. -/
def isTerminalEvent : StreamEvent → Bool
  | .content _ => false
  | .done => true
  | .error _ => true

/-- `content` events, the non-terminal ones. -/
def isContentEvent : StreamEvent → Bool
  | .content _ => true
  | .done => false
  | .error _ => false

/-- Whether a line's dispatch is terminal (its `return` ends the read). -/
def isStopAct : LineAct → Bool
  | .stop _ => true
  | .skip => false
  | .emit _ => false

/-- Whether a callback is an `onError` invocation. -/
def isErrorCb : Callback → Bool
  | .error _ => true
  | .chunk _ => false
  | .done => false

/-- Whether a callback is an `onDone` invocation. -/
def isDoneCb : Callback → Bool
  | .done => true
  | .chunk _ => false
  | .error _ => false

/-! ## Line-splitting lemmas

The client's incremental buffer handling is equivalent to splitting the
whole stream once: `streamLoop_eq_runAll` below.  `clientLines s` are the
complete lines of a stream `s` (everything before the last newline), and
`lastSeg s` is the held-back final segment. -/

/-- The complete lines of a stream: all split segments but the last. -/
def clientLines (s : List Char) : List (List Char) := (splitNl s).dropLast

/-- The final (possibly incomplete) segment of a stream. -/
def lastSeg (s : List Char) : List Char := ((splitNl s).getLast?).getD []

/-- Line processing of a whole stream at once: dispatch the complete lines;
if none of them was terminal the read loop ends and `onDone` fires. -/
def runAll (s : List Char) : List Callback :=
  let r := runLines (clientLines s)
  if r.2 then r.1 else r.1 ++ [.done]

/-- Prepend a segment to the first line of a split. -/
def glueHead (p : List Char) : List (List Char) → List (List Char)
  | [] => [p]
  | l :: ls => (p ++ l) :: ls

theorem splitNl_ne_nil (cs : List Char) : splitNl cs ≠ [] := by
  match cs with
  | [] => simp [splitNl]
  | c :: cs =>
    rw [splitNl]
    split
    · simp
    · match h : splitNl cs with
      | [] => simp
      | l :: ls => simp

theorem glueHead_ne_nil (p : List Char) (ls : List (List Char)) : glueHead p ls ≠ [] := by
  cases ls <;> simp [glueHead]

theorem splitNl_cons_ne {c : Char} (hc : ¬c = '\n') (cs : List Char) :
    splitNl (c :: cs) = glueHead [c] (splitNl cs) := by
  rw [splitNl, if_neg hc]
  match h : splitNl cs with
  | [] => rfl
  | l :: ls => rfl

theorem glueHead_glueHead (p q : List Char) (ls : List (List Char)) :
    glueHead (p ++ q) ls = glueHead p (glueHead q ls) := by
  cases ls <;> simp [glueHead]

theorem glueHead_append_of_ne_nil (p : List Char) {as : List (List Char)}
    (h : as ≠ []) (bs : List (List Char)) :
    glueHead p (as ++ bs) = glueHead p as ++ bs := by
  cases as with
  | nil => exact absurd rfl h
  | cons a as => simp [glueHead]

theorem glueHead_nil_of_ne_nil {ls : List (List Char)} (h : ls ≠ []) :
    glueHead [] ls = ls := by
  cases ls with
  | nil => exact absurd rfl h
  | cons l ls => simp [glueHead]

theorem getLast?_cons_of_ne_nil {α : Type} (a : α) {l : List α} (h : l ≠ []) :
    (a :: l).getLast? = l.getLast? := by
  cases l with
  | nil => exact absurd rfl h
  | cons b bs => simp

theorem splitNl_append (xs ys : List Char) :
    splitNl (xs ++ ys) = (splitNl xs).dropLast ++ glueHead (lastSeg xs) (splitNl ys) := by
  induction xs with
  | nil =>
    show splitNl ys = (splitNl ([] : List Char)).dropLast ++ glueHead (lastSeg []) (splitNl ys)
    rw [show (splitNl ([] : List Char)).dropLast = [] from rfl,
      show lastSeg ([] : List Char) = [] from rfl, List.nil_append,
      glueHead_nil_of_ne_nil (splitNl_ne_nil ys)]
  | cons c xs ih =>
    by_cases hc : c = '\n'
    · subst hc
      rw [List.cons_append, splitNl, if_pos rfl, ih, splitNl, if_pos rfl,
        List.dropLast_cons_of_ne_nil (splitNl_ne_nil xs), List.cons_append]
      have hl : lastSeg ('\n' :: xs) = lastSeg xs := by
        rw [lastSeg, splitNl, if_pos rfl,
          getLast?_cons_of_ne_nil _ (splitNl_ne_nil xs), lastSeg]
      rw [hl]
    · rw [List.cons_append, splitNl_cons_ne hc, ih, splitNl_cons_ne hc]
      match h : splitNl xs with
      | [] => exact absurd h (splitNl_ne_nil xs)
      | [l] =>
        have hseg : lastSeg xs = l := by rw [lastSeg, h]; rfl
        have hseg2 : lastSeg (c :: xs) = c :: l := by
          rw [lastSeg, splitNl_cons_ne hc, h]; rfl
        rw [hseg, hseg2, List.dropLast_single, List.nil_append, ← glueHead_glueHead,
          show glueHead [c] [l] = [[c] ++ l] from rfl, List.dropLast_single, List.nil_append]
        rfl
      | l :: m :: ms =>
        have hseg : lastSeg (c :: xs) = lastSeg xs := by
          rw [lastSeg, splitNl_cons_ne hc, h, lastSeg, h,
            show glueHead [c] (l :: m :: ms) = ([c] ++ l) :: m :: ms from rfl,
            getLast?_cons_of_ne_nil _ (by simp : (m :: ms : List (List Char)) ≠ []),
            getLast?_cons_of_ne_nil _ (by simp : (m :: ms : List (List Char)) ≠ [])]
        rw [hseg, List.dropLast_cons₂,
          glueHead_append_of_ne_nil _
            (by simp : (l :: (m :: ms).dropLast : List (List Char)) ≠ [])]
        rfl

/-- A segment produced by `splitNl` never contains a newline. -/
theorem splitNl_mem_no_newline (cs : List Char) :
    ∀ l ∈ splitNl cs, '\n' ∉ l := by
  induction cs with
  | nil => simp [splitNl]
  | cons c cs ih =>
    rw [splitNl]
    split
    · simpa using ih
    · match h : splitNl cs with
      | [] => exact absurd h (splitNl_ne_nil cs)
      | l :: ls =>
        intro x hx
        rcases List.mem_cons.mp hx with hx | hx
        · subst hx
          intro hmem
          rcases List.mem_cons.mp hmem with hh | hh
          · exact ‹¬c = '\n'› hh.symm
          · exact ih l (h ▸ List.mem_cons_self l ls) hh
        · exact ih x (h ▸ List.mem_cons_of_mem l hx)

theorem splitNl_of_no_newline {cs : List Char} (h : '\n' ∉ cs) : splitNl cs = [cs] := by
  induction cs with
  | nil => rfl
  | cons c cs ih =>
    have hc : ¬c = '\n' := by rintro rfl; exact h (List.mem_cons_self _ _)
    have hm : '\n' ∉ cs := fun m => h (List.mem_cons_of_mem c m)
    rw [splitNl, if_neg hc, ih hm]

theorem lastSeg_no_newline (cs : List Char) : '\n' ∉ lastSeg cs := by
  unfold lastSeg
  match h : (splitNl cs).getLast? with
  | none => simp
  | some l =>
    simpa using splitNl_mem_no_newline cs l (List.mem_of_getLast?_eq_some h)

theorem splitNl_glue {p : List Char} (hp : '\n' ∉ p) (ys : List Char) :
    splitNl (p ++ ys) = glueHead p (splitNl ys) := by
  rw [splitNl_append, splitNl_of_no_newline hp]
  simp [lastSeg, splitNl_of_no_newline hp]

theorem clientLines_append (xs ys : List Char) :
    clientLines (xs ++ ys) = clientLines xs ++ clientLines (lastSeg xs ++ ys) := by
  simp only [clientLines]
  rw [splitNl_append, List.dropLast_append_of_ne_nil _ (glueHead_ne_nil _ _),
    splitNl_glue (lastSeg_no_newline xs)]

theorem runLines_append (as bs : List (List Char)) :
    runLines (as ++ bs) =
      if (runLines as).2 then runLines as
      else ((runLines as).1 ++ (runLines bs).1, (runLines bs).2) := by
  induction as with
  | nil => simp [runLines]
  | cons a as ih =>
    rw [List.cons_append, runLines]
    match h : procLine a with
    | .skip => rw [runLines, h, ih]
    | .emit c =>
      rw [runLines, h, ih]
      by_cases ht : (runLines as).2 <;> simp [ht]
    | .stop c => simp [runLines, h]

/-- The incremental read loop over any chunk partition equals one-shot line
processing of the buffered prefix plus the remaining stream. -/
theorem streamLoop_eq_runAll (chunks : List (List Char)) (buffer : List Char)
    (hb : '\n' ∉ buffer) :
    streamLoop chunks buffer = runAll (buffer ++ chunks.flatten) := by
  induction chunks generalizing buffer with
  | nil =>
    rw [streamLoop, runAll]
    simp [clientLines, splitNl_of_no_newline hb, runLines]
  | cons ch chs ih =>
    have hstep : streamLoop (ch :: chs) buffer =
        (if (runLines (clientLines (buffer ++ ch))).2
         then (runLines (clientLines (buffer ++ ch))).1
         else (runLines (clientLines (buffer ++ ch))).1 ++
           streamLoop chs (lastSeg (buffer ++ ch))) := rfl
    rw [hstep, List.flatten_cons, ← List.append_assoc, runAll,
      clientLines_append (buffer ++ ch) chs.flatten, runLines_append]
    by_cases ht : (runLines (clientLines (buffer ++ ch))).2
    · simp only [ht, if_true]
    · simp only [ht, if_false, Bool.false_eq_true]
      rw [ih (lastSeg (buffer ++ ch)) (lastSeg_no_newline _), runAll]
      by_cases ht2 : (runLines (clientLines (lastSeg (buffer ++ ch) ++ chs.flatten))).2 <;>
        simp [ht2, List.append_assoc]

/-- `streamChat` on a successful response equals one-shot line processing
of the whole stream, for every chunk partition. -/
theorem streamChat_eq_runAll (chunks : List (List Char)) :
    streamChat true chunks = runAll chunks.flatten := by
  rw [streamChat, if_pos rfl, streamLoop_eq_runAll chunks [] (by simp), List.nil_append]

/-! ## Codec round trip

`JSON.parse` inverts `JSON.stringify` on the frames the gateway emits:
fragment text survives the encode/decode cycle exactly. -/

theorem wsSkip_cons {c : Char} (h : jsonWs c = false) (cs : List Char) :
    wsSkip (c :: cs) = c :: cs := by
  rw [wsSkip, h]
  rfl

theorem hexVal_hexDig : ∀ k, k < 16 → hexVal (hexDig k) = some k := by decide

theorem toNat_ofNat_small {n : Nat} (h : n < 0xD800) : (Char.ofNat n).toNat = n := by
  have hv : n.isValidChar := Or.inl h
  rw [Char.ofNat, dif_pos hv]
  rfl

theorem char_not_high (c : Char) : ¬(0xD800 ≤ c.toNat ∧ c.toNat ≤ 0xDBFF) := by
  have h := c.valid
  have e : c.toNat = c.val.toNat := rfl
  rcases h with h | ⟨h1, h2⟩ <;> (intro ⟨a, b⟩; omega)

theorem char_not_low (c : Char) : ¬(0xDC00 ≤ c.toNat ∧ c.toNat ≤ 0xDFFF) := by
  have h := c.valid
  have e : c.toNat = c.val.toNat := rfl
  rcases h with h | ⟨h1, h2⟩ <;> (intro ⟨a, b⟩; omega)

theorem hexQuad_eval {a b c d : Char} {x y z w : Nat} (ha : hexVal a = some x)
    (hb : hexVal b = some y) (hc : hexVal c = some z) (hd : hexVal d = some w) :
    hexQuad a b c d = some (4096 * x + 256 * y + 16 * z + w) := by
  simp [hexQuad, ha, hb, hc, hd]

theorem strTokens_u (a b c3 d : Char) (cs3 : List Char) :
    strTokens ('\\' :: 'u' :: a :: b :: c3 :: d :: cs3) =
      match hexQuad a b c3 d with
      | none => none
      | some n => (strTokens cs3).map (fun r => (n :: r.1, r.2)) := rfl

/-- One escaped character decodes back to its own code point, whatever
follows. -/
theorem strTokens_escChar (c : Char) (rest : List Char) :
    strTokens (escChar c ++ rest) =
      (strTokens rest).map (fun r => (c.toNat :: r.1, r.2)) := by
  by_cases h1 : c = '"'
  · subst h1; rfl
  by_cases h2 : c = '\\'
  · subst h2; rfl
  by_cases h3 : c = Char.ofNat 8
  · subst h3; rfl
  by_cases h4 : c = '\t'
  · subst h4; rfl
  by_cases h5 : c = '\n'
  · subst h5; rfl
  by_cases h6 : c = Char.ofNat 12
  · subst h6; rfl
  by_cases h7 : c = '\r'
  · subst h7; rfl
  by_cases h8 : c.toNat < 0x20
  · rw [show escChar c = ['\\', 'u', '0', '0', hexDig (c.toNat / 16), hexDig (c.toNat % 16)] by
      rw [escChar, if_neg h1, if_neg h2, if_neg h3, if_neg h4, if_neg h5, if_neg h6, if_neg h7,
        if_pos h8]]
    simp only [List.cons_append, List.nil_append]
    rw [strTokens_u,
      hexQuad_eval (show hexVal '0' = some 0 by decide) (show hexVal '0' = some 0 by decide)
        (hexVal_hexDig (c.toNat / 16) (by omega)) (hexVal_hexDig (c.toNat % 16) (by omega)),
      show 4096 * 0 + 256 * 0 + 16 * (c.toNat / 16) + c.toNat % 16 = c.toNat by omega]
  · rw [show escChar c = [c] by
      rw [escChar, if_neg h1, if_neg h2, if_neg h3, if_neg h4, if_neg h5, if_neg h6, if_neg h7,
        if_neg h8]]
    rw [List.singleton_append, strTokens.eq_def]
    simp only []
    rw [if_neg h1, if_neg h2, if_neg h8]

theorem strTokens_quote (rest : List Char) : strTokens ('"' :: rest) = some ([], rest) := by
  rw [strTokens.eq_def]
  simp only []
  rw [if_pos trivial]

theorem strTokens_escape (cs rest : List Char) :
    strTokens (cs.flatMap escChar ++ '"' :: rest) = some (cs.map Char.toNat, rest) := by
  induction cs with
  | nil => simp only [List.flatMap_nil, List.nil_append, List.map_nil, strTokens_quote]
  | cons c cs ih =>
    rw [List.flatMap_cons, List.append_assoc, strTokens_escChar, ih]
    rfl

theorem pairAux_map_toNat (cs : List Char) :
    ∀ fuel, cs.length ≤ fuel → pairAux fuel (cs.map Char.toNat) = cs := by
  induction cs with
  | nil =>
    intro fuel h
    match fuel with
    | 0 => rfl
    | f + 1 => rw [List.map_nil, pairAux.eq_def]
  | cons c cs ih =>
    intro fuel h
    match fuel with
    | 0 => simp at h
    | f + 1 =>
      rw [List.map_cons, pairAux.eq_def]
      simp only []
      rw [if_neg (char_not_high c), if_neg (char_not_low c),
        Char.ofNat_toNat, ih f (by simpa using h)]

theorem pairSurrogates_map_toNat (cs : List Char) :
    pairSurrogates (cs.map Char.toNat) = cs :=
  pairAux_map_toNat cs _ (by simp)

theorem strBody_escape (cs rest : List Char) :
    strBody (cs.flatMap escChar ++ '"' :: rest) = some (cs, rest) := by
  rw [strBody, strTokens_escape]
  simp [pairSurrogates_map_toNat]

theorem mk_data (s : String) : String.mk s.data = s := rfl

/-- A stringified string value parses back to itself, whatever follows. -/
theorem parseVal_strLit (fuel : Nat) (s : String) (rest : List Char) :
    parseVal (fuel + 1) (stringifyStr s ++ rest) = some (.str s, rest) := by
  have h1 : stringifyStr s ++ rest = '"' :: (s.data.flatMap escChar ++ ('"' :: rest)) := by
    simp [stringifyStr]
  rw [h1, parseVal, wsSkip_cons (by decide)]
  simp only []
  rw [if_pos trivial, strBody_escape]
  rfl

/-- A stringified one-string-field object parses back to the one-member
object, whatever follows (for keys that need no escaping). -/
theorem parseVal_objStr (fuel : Nat) (key v : String) (rest : List Char)
    (hkey : key.data.flatMap escChar = key.data) :
    parseVal (fuel + 1 + 1 + 1) (stringifyStrField key v ++ rest) =
      some (.obj [(key, .str v)], rest) := by
  have h1 : stringifyStrField key v ++ rest =
      obr :: ('"' :: (key.data ++ '"' :: ':' :: (stringifyStr v ++ cbr :: rest))) := by
    simp [stringifyStrField]
  rw [h1, parseVal, wsSkip_cons (by decide)]
  simp only []
  rw [if_pos trivial, wsSkip_cons (by decide)]
  simp only []
  rw [parseMembers, wsSkip_cons (by decide)]
  simp only []
  rw [← hkey, strBody_escape]
  simp only []
  rw [wsSkip_cons (by decide)]
  simp only []
  rw [parseVal_strLit fuel v (cbr :: rest)]
  simp only []
  rw [wsSkip_cons (by decide)]
  rw [if_neg (show ¬('"' : Char) = cbr by decide)]
  rfl

/-- `JSON.parse` inverts `JSON.stringify` on a one-string-field object
document. -/
theorem parseJson_objStr (key v : String)
    (hkey : key.data.flatMap escChar = key.data) :
    parseJson (stringifyStrField key v) = some (.obj [(key, .str v)]) := by
  have hobj := parseVal_objStr (2 * (stringifyStrField key v).length - 1) key v [] hkey
  rw [List.append_nil] at hobj
  have hlen : (stringifyStrField key v).length =
      ('"' :: (key.data ++ ['"', ':'] ++ stringifyStr v ++ [cbr])).length + 1 := rfl
  rw [parseJson, show 2 * (stringifyStrField key v).length + 2 =
      2 * (stringifyStrField key v).length - 1 + 1 + 1 + 1 by omega, hobj]
  rfl

/-! ## Per-line dispatch of the gateway's frames -/

theorem take6_marker (p : List Char) : ("data: ".data ++ p).take 6 = "data: ".data :=
  (show ("data: ".data).length = 6 from rfl) ▸ List.take_left "data: ".data p

theorem drop6_marker (p : List Char) : ("data: ".data ++ p).drop 6 = p :=
  (show ("data: ".data).length = 6 from rfl) ▸ List.drop_left "data: ".data p

/-- A content frame's line dispatches as one `onChunk` with the exact
fragment text, for every non-empty fragment. -/
theorem procLine_content (f : String) (hf : f ≠ "") :
    procLine ("data: ".data ++ stringifyStrField "content" f) = .emit (.chunk (.str f)) := by
  rw [procLine, if_pos (take6_marker _), drop6_marker, parseJson_objStr "content" f rfl]
  simp only []
  have hd : jTruthy (jGet (Json.obj [("content", Json.str f)]) "done") = false := rfl
  have he : jTruthy (jGet (Json.obj [("content", Json.str f)]) "error") = false := rfl
  have hc : jTruthy (jGet (Json.obj [("content", Json.str f)]) "content") = true := by
    simp [jGet, jTruthy, bne_iff_ne, hf]
  rw [hd, he, hc]
  simp
  rfl

/-- An error frame's line dispatches as a terminating `onError` with the
exact message, for every non-empty message. -/
theorem procLine_error (m : String) (hm : m ≠ "") :
    procLine ("data: ".data ++ stringifyStrField "error" m) = .stop (.error (.str m)) := by
  rw [procLine, if_pos (take6_marker _), drop6_marker, parseJson_objStr "error" m rfl]
  simp only []
  have hd : jTruthy (jGet (Json.obj [("error", Json.str m)]) "done") = false := rfl
  have he : jTruthy (jGet (Json.obj [("error", Json.str m)]) "error") = true := by
    simp [jGet, jTruthy, bne_iff_ne, hm]
  rw [hd, he]
  simp [jGet]

/-- The done frame's line dispatches as a terminating `onDone`. -/
theorem procLine_done : procLine ("data: ".data ++ doneBody) = .stop .done := rfl

/-- The empty segment between a frame's two newlines is skipped. -/
theorem procLine_nil : procLine [] = .skip := rfl

/-! ## Line structure of the emitted byte stream -/

theorem hexDig_ne_newline : ∀ k, k < 16 → hexDig k ≠ '\n' := by decide

theorem escChar_no_newline (c : Char) : '\n' ∉ escChar c := by
  rw [escChar]
  split_ifs with h1 h2 h3 h4 h5 h6 h7 h8
  · decide
  · decide
  · decide
  · decide
  · subst h5; decide
  · decide
  · decide
  · intro hm
    have b1 : c.toNat / 16 < 16 := by omega
    have b2 : c.toNat % 16 < 16 := by omega
    simp only [List.mem_cons, List.not_mem_nil, or_false] at hm
    rcases hm with h | h | h | h | h | h <;>
      first
        | exact absurd h.symm (by decide)
        | exact absurd h.symm (hexDig_ne_newline _ (by omega))
  · intro hm
    simp only [List.mem_singleton] at hm
    subst hm
    exact h8 (by decide)

theorem stringifyStr_no_newline (s : String) : '\n' ∉ stringifyStr s := by
  rw [stringifyStr]
  intro hm
  rcases List.mem_cons.mp hm with h | h
  · exact absurd h.symm (by decide)
  rcases List.mem_append.mp h with h | h
  · obtain ⟨c, _, hc⟩ := List.mem_flatMap.mp h
    exact escChar_no_newline c hc
  · simp at h

theorem stringifyStrField_no_newline (key v : String) (hkey : '\n' ∉ key.data) :
    '\n' ∉ stringifyStrField key v := by
  have he : stringifyStrField key v =
      obr :: '"' :: (key.data ++ ('"' :: ':' :: (stringifyStr v ++ [cbr]))) := by
    simp [stringifyStrField]
  rw [he]
  intro hm
  rcases List.mem_cons.mp hm with h | h
  · exact absurd h.symm (by decide)
  rcases List.mem_cons.mp h with h | h
  · exact absurd h.symm (by decide)
  rcases List.mem_append.mp h with h | h
  · exact hkey h
  rcases List.mem_cons.mp h with h | h
  · exact absurd h.symm (by decide)
  rcases List.mem_cons.mp h with h | h
  · exact absurd h.symm (by decide)
  rcases List.mem_append.mp h with h | h
  · exact stringifyStr_no_newline v h
  · exact absurd (List.mem_singleton.mp h).symm (by decide)

theorem doneBody_no_newline : '\n' ∉ doneBody := by decide

theorem splitNl_newline_cons (r : List Char) : splitNl ('\n' :: r) = [] :: splitNl r := by
  rw [splitNl, if_pos rfl]

/-- The lines contributed by one frame at the head of a stream: the data
line, the blank line, and then the rest. -/
theorem splitNl_frame (p : List Char) (hp : '\n' ∉ p) (rest : List Char) :
    splitNl (frameOf p ++ rest) =
      ("data: ".data ++ p) :: [] :: splitNl rest := by
  have hline : '\n' ∉ "data: ".data ++ p := by
    intro hm
    rcases List.mem_append.mp hm with h | h
    · exact absurd h (by decide)
    · exact hp h
  have h1 : frameOf p ++ rest = ("data: ".data ++ p) ++ ('\n' :: '\n' :: rest) := by
    simp [frameOf]
  rw [h1, splitNl_glue hline, splitNl_newline_cons, splitNl_newline_cons, glueHead,
    List.append_nil]

theorem clientLines_frame (p : List Char) (hp : '\n' ∉ p) (rest : List Char) :
    clientLines (frameOf p ++ rest) =
      ("data: ".data ++ p) :: [] :: clientLines rest := by
  rw [clientLines, splitNl_frame p hp rest, clientLines,
    List.dropLast_cons_of_ne_nil (by simp [splitNl_ne_nil]),
    List.dropLast_cons_of_ne_nil (splitNl_ne_nil rest)]

/-- Whole-stream processing of a frame at the head of the stream: dispatch
its line, skip the blank line, continue (or stop on a terminal). -/
theorem runAll_frame (p : List Char) (hp : '\n' ∉ p) (rest : List Char) :
    runAll (frameOf p ++ rest) =
      match procLine ("data: ".data ++ p) with
      | .skip => runAll rest
      | .emit c => c :: runAll rest
      | .stop c => [c] := by
  rw [runAll, clientLines_frame p hp rest, runLines]
  match h : procLine ("data: ".data ++ p) with
  | .skip =>
    rw [runLines, procLine_nil]
    rfl
  | .emit c =>
    rw [runLines, procLine_nil, runAll]
    simp only []
    by_cases ht : (runLines (clientLines rest)).2 <;> simp [ht]
  | .stop c => rfl

/-! ## Whole-stream behaviour on gateway output -/

theorem runAll_doneFrame : runAll doneFrame = [Callback.done] := rfl

theorem runAll_errorFrame (m : String) (hm : m ≠ "") :
    runAll (errorFrame m) = [Callback.error (.str m)] := by
  rw [show errorFrame m = frameOf (stringifyStrField "error" m) ++ [] from
      (List.append_nil _).symm,
    runAll_frame _ (stringifyStrField_no_newline "error" m (by decide)) [],
    procLine_error m hm]

/-- The loop's writes, described per surviving fragment: one content frame
per non-empty fragment, in order. -/
theorem gatewayWrites_eq (frags : List String) :
    gatewayWrites frags = (frags.filter (fun f => f ≠ "")).map contentFrame := by
  induction frags with
  | nil => rfl
  | cons f fs ih =>
    by_cases hf : f = "" <;>
      simp [gatewayWrites, List.filterMap_cons, List.filter_cons, hf] <;>
      simpa [gatewayWrites] using ih

/-- Processing the written content frames yields exactly one `onChunk` per
non-empty fragment, with that fragment's text, then continues with the
rest of the stream. -/
theorem runAll_writes (frags : List String) (rest : List Char) :
    runAll ((gatewayWrites frags).flatten ++ rest) =
      ((frags.filter (fun f => f ≠ "")).map (fun f => Callback.chunk (.str f))) ++
        runAll rest := by
  induction frags with
  | nil => simp [gatewayWrites]
  | cons f fs ih =>
    by_cases hf : f = ""
    · subst hf
      rw [show gatewayWrites ("" :: fs) = gatewayWrites fs from by
          simp [gatewayWrites, List.filterMap_cons]]
      simpa [List.filter_cons] using ih
    · rw [show gatewayWrites (f :: fs) = contentFrame f :: gatewayWrites fs from by
          simp [gatewayWrites, List.filterMap_cons, hf],
        List.flatten_cons, List.append_assoc, contentFrame,
        runAll_frame _ (stringifyStrField_no_newline "content" f (by decide)) _,
        procLine_content f hf, ih]
      simp [List.filter_cons, hf]

/-- One-shot processing of the whole normal-completion body. -/
theorem runAll_gatewayBody (frags : List String) :
    runAll (gatewayBody frags) =
      ((frags.filter (fun f => f ≠ "")).map (fun f => Callback.chunk (.str f))) ++
        [Callback.done] := by
  rw [gatewayBody, runAll_writes, runAll_doneFrame]

/-- One-shot processing of a partial-output-then-error body. -/
theorem runAll_errorBody (frags : List String) (msg : String) (hm : msg ≠ "") :
    runAll ((gatewayWrites frags).flatten ++ errorFrame msg) =
      ((frags.filter (fun f => f ≠ "")).map (fun f => Callback.chunk (.str f))) ++
        [Callback.error (.str msg)] := by
  rw [runAll_writes, runAll_errorFrame msg hm]

/-- The only non-terminal callback the dispatch ever emits is `onChunk`. -/
theorem procLine_emit_chunk {l : List Char} {c : Callback} (h : procLine l = .emit c) :
    ∃ v, c = .chunk v := by
  rw [procLine] at h
  by_cases ht : l.take 6 = "data: ".data
  · rw [if_pos ht] at h
    rcases hp : parseJson (l.drop 6) with _ | j <;> rw [hp] at h
    · cases h
    · simp only [] at h
      split_ifs at h
      all_goals (cases h; exact ⟨_, rfl⟩)
  · rw [if_neg ht] at h
    cases h

/-- Lines none of which dispatch a terminal produce only `onChunk`
callbacks and leave the loop running. -/
theorem runLines_no_stop {ls : List (List Char)}
    (h : ∀ l ∈ ls, isStopAct (procLine l) = false) :
    (runLines ls).2 = false ∧ ∀ x ∈ (runLines ls).1, ∃ v, x = Callback.chunk v := by
  induction ls with
  | nil => simp [runLines]
  | cons l ls ih =>
    have hl := h l (List.mem_cons_self l ls)
    have ih' := ih (fun l' hl' => h l' (List.mem_cons_of_mem l hl'))
    rw [runLines]
    match hp : procLine l with
    | .skip => exact ih'
    | .emit c =>
      refine ⟨ih'.1, ?_⟩
      intro x hx
      rcases List.mem_cons.mp hx with hx | hx
      · exact hx ▸ procLine_emit_chunk hp
      · exact ih'.2 x hx
    | .stop c =>
      rw [hp] at hl
      cases hl

/-! ## Stock-data lemmas -/

theorem upChar_toNat_of_lower {c : Char} (h : 97 ≤ c.toNat ∧ c.toNat ≤ 122) :
    (upChar c).toNat = c.toNat - 32 := by
  rw [upChar, if_pos h, toNat_ofNat_small (by omega)]

theorem upChar_idem (c : Char) : upChar (upChar c) = upChar c := by
  by_cases h : 97 ≤ c.toNat ∧ c.toNat ≤ 122
  · have h2 := upChar_toNat_of_lower h
    have h3 : ¬(97 ≤ (upChar c).toNat ∧ (upChar c).toNat ≤ 122) := by rw [h2]; omega
    rw [upChar, if_neg h3]
  · have e : upChar c = c := by rw [upChar, if_neg h]
    rw [e]
    exact e

theorem jsUpper_idem (s : String) : jsUpper (jsUpper s) = jsUpper s := by
  show String.mk ((String.mk (s.data.map upChar)).data.map upChar) = _
  rw [show (String.mk (s.data.map upChar)).data = s.data.map upChar from rfl,
    List.map_map, show upChar ∘ upChar = upChar from funext upChar_idem]
  rfl

/-- `getStockQuote` only looks at the uppercased symbol, so it is fully
case-insensitive. -/
theorem getStockQuote_upper (jsSin : ℚ → ℚ) (now : ℚ) (s : String) :
    getStockQuote jsSin now s = getStockQuote jsSin now (jsUpper s) := by
  simp only [getStockQuote, jsUpper_idem]

theorem stockLookup_isSome (k : String) :
    (stockLookup k).isSome = true ↔ k ∈ getAllSymbols := by
  simp [stockLookup, List.find?_isSome, getAllSymbols, List.mem_map]

/-- `getStockQuote` returns a quote exactly for the symbols whose
uppercasing is a table key. -/
theorem getStockQuote_isSome (jsSin : ℚ → ℚ) (now : ℚ) (s : String) :
    (getStockQuote jsSin now s).isSome = true ↔ jsUpper s ∈ getAllSymbols := by
  rw [← stockLookup_isSome]
  rcases h : stockLookup (jsUpper s) with _ | st <;> rw [getStockQuote, h] <;> simp [h]

/-- Each table key is already uppercase. -/
theorem upper_symbols : ∀ s ∈ getAllSymbols, jsUpper s = s := by decide

/-! ## Enrichment lemmas -/

theorem mentioned_subset {message : String} :
    mentionedStocks message ⊆ getAllSymbols :=
  fun _ hx => (List.mem_filter.mp hx).1

theorem mentioned_quote_isSome (jsSin : ℚ → ℚ) (now : ℚ) {message s : String}
    (hs : s ∈ mentionedStocks message) :
    (getStockQuote jsSin now s).isSome = true := by
  have hsym := mentioned_subset hs
  rw [getStockQuote_isSome, upper_symbols s hsym]
  exact hsym

theorem quoteLine_ne_empty (render fixed1 : ℚ → String) (q : Quote) :
    quoteLine render fixed1 q ≠ "" := by
  intro h
  have hl := congrArg String.length h
  simp [quoteLine, String.length_append,
    show (": $" : String).length = 3 from rfl] at hl

/-- The `.filter(Boolean)` in the handler drops nothing: every mentioned
symbol has a quote and every quote line is non-empty, so the context holds
exactly one line per mentioned symbol, in order. -/
theorem quoteLines_eq (jsSin : ℚ → ℚ) (now : ℚ) (render fixed1 : ℚ → String)
    (message : String) :
    quoteLines jsSin now render fixed1 message =
      (mentionedStocks message).map (fun s =>
        match getStockQuote jsSin now s with
        | some q => quoteLine render fixed1 q
        | none => "") := by
  rw [quoteLines, List.filter_eq_self.mpr]
  intro t ht
  obtain ⟨s, hs, rfl⟩ := List.mem_map.mp ht
  rcases hq : getStockQuote jsSin now s with _ | q
  · have h2 := mentioned_quote_isSome jsSin now hs
    rw [hq] at h2
    simp at h2
  · simp [quoteLine_ne_empty]

/-! ## Remaining client and gateway helpers -/

theorem runLines_skip_cons {l : List Char} (h : procLine l = .skip)
    (ls : List (List Char)) : runLines (l :: ls) = runLines ls := by
  rw [runLines, h]

/-- An empty-content frame's line is skipped (its `content` field is
falsy). -/
theorem procLine_content_empty :
    procLine ("data: ".data ++ stringifyStrField "content" "") = .skip := rfl

/-- Processing a run of content frames (for arbitrary fragments, empty ones
included) yields one `onChunk` per non-empty fragment, then continues. -/
theorem runAll_contentFrames (frags : List String) (rest : List Char) :
    runAll ((frags.map contentFrame).flatten ++ rest) =
      ((frags.filter (fun f => f ≠ "")).map (fun f => Callback.chunk (.str f))) ++
        runAll rest := by
  induction frags with
  | nil => simp
  | cons f fs ih =>
    rw [List.map_cons, List.flatten_cons, List.append_assoc, contentFrame,
      runAll_frame _ (stringifyStrField_no_newline "content" f (by decide)) _]
    by_cases hf : f = ""
    · subst hf
      rw [procLine_content_empty, ih]
      simp [List.filter_cons]
    · rw [procLine_content f hf, ih]
      simp [List.filter_cons, hf]

theorem contentEvents_nonterminal (frags : List String) :
    ∀ x ∈ contentEvents frags, isTerminalEvent x = false := by
  intro x hx
  obtain ⟨f, _, rfl⟩ := List.mem_map.mp hx
  rfl

/-- A sequence of non-terminal events closed by one terminal event has
exactly one terminal member and no content event after a terminal one. -/
theorem terminal_shape (A : List StreamEvent) (e : StreamEvent)
    (hA : ∀ x ∈ A, isTerminalEvent x = false) (he : isTerminalEvent e = true) :
    (A ++ [e]).countP isTerminalEvent = 1 ∧
      ∀ pre t post, A ++ [e] = pre ++ t :: post → isTerminalEvent t = true →
        ∀ x ∈ post, isContentEvent x = false := by
  constructor
  · rw [List.countP_append, List.countP_eq_zero.mpr (by simpa using hA)]
    simp [List.countP_cons, he]
  · intro pre t post heq ht x hx
    match post, hx with
    | q :: qs, hx =>
      have hd := congrArg List.dropLast heq
      rw [List.dropLast_concat, List.dropLast_append_cons,
        List.dropLast_cons₂] at hd
      have htA : t ∈ A := hd ▸ List.mem_append_right pre (List.mem_cons_self t _)
      rw [hA t htA] at ht
      cases ht

/-- The stream body the handler writes is exactly the frame encoding of the
event sequence it emits. -/
theorem chatBody_encode (message : String) (frags : List String)
    (outcome : ProviderEnd) (body : List Char) (evs : List StreamEvent)
    (hb : chatHandler message frags outcome = .stream body)
    (he : chatEvents message frags outcome = some evs) :
    body = (evs.map encodeEvent).flatten := by
  have hw : gatewayWrites frags = (contentEvents frags).map encodeEvent := by
    rw [gatewayWrites_eq, contentEvents, List.map_map]
    rfl
  rw [chatHandler.eq_def] at hb
  rw [chatEvents.eq_def] at he
  by_cases hm : message = ""
  · rw [if_pos hm] at hb
    cases hb
  rw [if_neg hm] at hb he
  match outcome with
  | .normal =>
    simp only [] at hb he
    cases hb
    cases he
    rw [List.map_append, List.flatten_append, ← hw, gatewayBody]
    rfl
  | .failure =>
    simp only [] at hb he
    by_cases hw2 : (gatewayWrites frags).flatten = []
    · rw [if_pos hw2] at hb
      cases hb
    · rw [if_neg hw2] at hb he
      cases hb
      cases he
      rw [List.map_append, List.flatten_append, ← hw]
      rfl

/-! ## The claims -/

/-- C1: Full pipeline round trip.  For every fragment sequence the provider
yields before ending normally, the gateway's body is one content frame per
non-empty fragment (in order) followed by one done frame, and for every
partition of that body into reader chunks, `streamChat` invokes `onChunk`
once per non-empty fragment with that fragment's exact text, in order,
then exactly one `onDone` and no `onError` — independent of chunk
boundaries. -/
theorem claim_full_pipeline_roundtrip (frags : List String) (chunks : List (List Char))
    (h : chunks.flatten = gatewayBody frags) :
    gatewayBody frags =
      ((frags.filter (fun f => f ≠ "")).map contentFrame).flatten ++ doneFrame ∧
    streamChat true chunks =
      ((frags.filter (fun f => f ≠ "")).map (fun f => Callback.chunk (.str f))) ++
        [Callback.done] := by
  refine ⟨?_, ?_⟩
  · rw [gatewayBody, gatewayWrites_eq]
  · rw [streamChat_eq_runAll, h, runAll_gatewayBody]

/-- Witness for C1: the spec's concrete scenario, fragments `Apple`, ` is`,
` strong.`, with the byte stream cut into two chunks mid-frame. -/
theorem claim_full_pipeline_roundtrip_witness :
    streamChat true [(gatewayBody ["Apple", " is", " strong."]).take 25,
        (gatewayBody ["Apple", " is", " strong."]).drop 25] =
      ((["Apple", " is", " strong."].filter (fun f => f ≠ "")).map
          (fun f => Callback.chunk (.str f))) ++ [Callback.done] :=
  (claim_full_pipeline_roundtrip ["Apple", " is", " strong."]
    [(gatewayBody ["Apple", " is", " strong."]).take 25,
      (gatewayBody ["Apple", " is", " strong."]).drop 25]
    (by simp)).2

/-- C2 counterexample: the claim says every whitespace-only message is
rejected with a 400 and no frames, but the handler's test is JS falsiness
(`!message`), which a single-space message passes: the request streams and
emits events. -/
theorem claim_empty_message_counterexample :
    chatHandler " " ["Hello"] .normal ≠ .syncError 400 "Message required" ∧
    chatEvents " " ["Hello"] .normal = some [.content "Hello", .done] := by
  constructor
  · decide
  · decide

/-- C2 amended: only the empty-string message short-circuits to the
synchronous 400 with no event frames; whitespace-only messages are
processed like any other. -/
theorem claim_empty_message_amended (frags : List String) (outcome : ProviderEnd) :
    chatHandler "" frags outcome = .syncError 400 "Message required" ∧
    chatEvents "" frags outcome = none := by
  constructor
  · rw [chatHandler.eq_def, if_pos rfl]
  · rw [chatEvents.eq_def, if_pos rfl]

/-- C3: every StreamEvent sequence a request emits, over all provider
behaviours, contains at most one terminal event and no content event after
a terminal one. -/
theorem claim_stream_event_invariant (message : String) (frags : List String)
    (outcome : ProviderEnd) (evs : List StreamEvent)
    (h : chatEvents message frags outcome = some evs) :
    evs.countP isTerminalEvent ≤ 1 ∧
      ∀ pre t post, evs = pre ++ t :: post → isTerminalEvent t = true →
        ∀ x ∈ post, isContentEvent x = false := by
  rw [chatEvents.eq_def] at h
  by_cases hm : message = ""
  · rw [if_pos hm] at h
    cases h
  rw [if_neg hm] at h
  match outcome with
  | .normal =>
    simp only [] at h
    cases h
    have hs := terminal_shape (contentEvents frags) .done
      (contentEvents_nonterminal frags) rfl
    exact ⟨le_of_eq hs.1, hs.2⟩
  | .failure =>
    simp only [] at h
    by_cases hw : (gatewayWrites frags).flatten = []
    · rw [if_pos hw] at h
      cases h
    · rw [if_neg hw] at h
      cases h
      have hs := terminal_shape (contentEvents frags) (.error "AI service error")
        (contentEvents_nonterminal frags) rfl
      exact ⟨le_of_eq hs.1, hs.2⟩

/-- Witness for C3 at a concrete request. -/
theorem claim_stream_event_invariant_witness :
    [StreamEvent.content "x", StreamEvent.done].countP isTerminalEvent ≤ 1 ∧
      ∀ pre t post,
        [StreamEvent.content "x", StreamEvent.done] = pre ++ t :: post →
        isTerminalEvent t = true → ∀ x ∈ post, isContentEvent x = false :=
  claim_stream_event_invariant "hi" ["x"] .normal
    [StreamEvent.content "x", StreamEvent.done] rfl

/-- C4: enrichment completeness and minimality.  For every non-empty
message: a symbol is mentioned iff it is a table symbol occurring as a
substring of the uppercased message; the context holds exactly one quote
line per mentioned symbol (each of which has a quote), in order; with no
mention the stock context is empty; and the system message always carries
the market-index summary, independent of the message. -/
theorem claim_enrichment_completeness (jsSin : ℚ → ℚ) (now : ℚ)
    (render fixed1 : ℚ → String) (message : String) (_hm : message ≠ "") :
    (∀ s, s ∈ mentionedStocks message ↔
      s ∈ getAllSymbols ∧ s.data <:+: (jsUpper message).data) ∧
    quoteLines jsSin now render fixed1 message =
      (mentionedStocks message).map (fun s =>
        match getStockQuote jsSin now s with
        | some q => quoteLine render fixed1 q
        | none => "") ∧
    (∀ s ∈ mentionedStocks message, ∃ q, getStockQuote jsSin now s = some q) ∧
    (mentionedStocks message = [] →
      stockContext jsSin now render fixed1 message = "") ∧
    systemContent jsSin now render fixed1 message =
      sysIntro ++ indexContext jsSin now render ++
        stockContext jsSin now render fixed1 message ++ sysOutro := by
  refine ⟨?_, quoteLines_eq jsSin now render fixed1 message, ?_, ?_, rfl⟩
  · intro s
    rw [mentionedStocks, List.mem_filter]
    simp
  · intro s hs
    exact Option.isSome_iff_exists.mp (mentioned_quote_isSome jsSin now hs)
  · intro h0
    rw [stockContext, if_neg (by rw [h0]; simp)]

/-- Witness for C4 at the spec's concrete message. -/
theorem claim_enrichment_completeness_witness :
    "AAPL" ∈ mentionedStocks "Analyze AAPL" ↔
      "AAPL" ∈ getAllSymbols ∧ "AAPL".data <:+: (jsUpper "Analyze AAPL").data :=
  (claim_enrichment_completeness (fun _ => 0) 0 (fun _ => "") (fun _ => "")
    "Analyze AAPL" (by decide)).1 "AAPL"

/-- C5: a provider failure raised after at least one content frame was
written produces exactly the already-written content frames followed by a
single terminal error frame carrying a human-readable message; prior output
is preserved as a prefix, with no rollback, and the event sequence has
exactly one terminal event. -/
theorem claim_midstream_failure (message : String) (frags : List String)
    (hm : message ≠ "") (hw : (gatewayWrites frags).flatten ≠ []) :
    chatHandler message frags .failure =
      .stream ((gatewayWrites frags).flatten ++ errorFrame "AI service error") ∧
    chatEvents message frags .failure =
      some (contentEvents frags ++ [.error "AI service error"]) ∧
    (contentEvents frags ++
        [StreamEvent.error "AI service error"]).countP isTerminalEvent = 1 := by
  refine ⟨?_, ?_,
    (terminal_shape (contentEvents frags) (.error "AI service error")
      (contentEvents_nonterminal frags) rfl).1⟩
  · rw [chatHandler.eq_def, if_neg hm]
    simp only []
    rw [if_neg hw]
  · rw [chatEvents.eq_def, if_neg hm]
    simp only []
    rw [if_neg hw]

/-- Witness for C5 at a concrete request. -/
theorem claim_midstream_failure_witness :
    chatHandler "Analyze AAPL" ["Apple"] .failure =
      .stream ((gatewayWrites ["Apple"]).flatten ++ errorFrame "AI service error") ∧
    chatEvents "Analyze AAPL" ["Apple"] .failure =
      some (contentEvents ["Apple"] ++ [.error "AI service error"]) ∧
    (contentEvents ["Apple"] ++
        [StreamEvent.error "AI service error"]).countP isTerminalEvent = 1 :=
  claim_midstream_failure "Analyze AAPL" ["Apple"] (by decide) (by decide)

/-- C6 counterexample: a byte stream that ends with an error frame whose
message is the empty string invokes `onError` zero times, not once — the
empty string is falsy, the frame is skipped, and the read runs to end of
stream, finishing with `onDone`. -/
theorem claim_error_stream_counterexample :
    streamChat true [errorFrame ""] = [Callback.done] ∧
    (streamChat true [errorFrame ""]).countP isErrorCb = 0 :=
  ⟨rfl, rfl⟩

/-- C6 amended: for every byte stream of content frames ending with an
error frame carrying a NON-EMPTY message, and every chunking, `streamChat`
invokes `onError` exactly once with exactly that message, and invokes
nothing after it. -/
theorem claim_error_stream_dispatch (frags : List String) (msg : String)
    (hm : msg ≠ "") (chunks : List (List Char))
    (h : chunks.flatten = (frags.map contentFrame).flatten ++ errorFrame msg) :
    streamChat true chunks =
      ((frags.filter (fun f => f ≠ "")).map (fun f => Callback.chunk (.str f))) ++
        [Callback.error (.str msg)] := by
  rw [streamChat_eq_runAll, h, runAll_contentFrames, runAll_errorFrame msg hm]

/-- Witness for C6 at a concrete error stream. -/
theorem claim_error_stream_dispatch_witness :
    streamChat true [(["a"].map contentFrame).flatten ++ errorFrame "boom"] =
      ((["a"].filter (fun f => f ≠ "")).map (fun f => Callback.chunk (.str f))) ++
        [Callback.error (.str "boom")] :=
  claim_error_stream_dispatch ["a"] "boom" (by decide)
    [(["a"].map contentFrame).flatten ++ errorFrame "boom"] (by simp)

/-- C7: a byte stream that ends without any line dispatching a terminal
frame still produces exactly one terminal callback: the callbacks are some
`onChunk`s followed by exactly one `onDone`. -/
theorem claim_no_terminal_still_done (chunks : List (List Char))
    (h : ∀ l ∈ clientLines chunks.flatten, isStopAct (procLine l) = false) :
    ∃ cbs, streamChat true chunks = cbs ++ [Callback.done] ∧
      ∀ x ∈ cbs, ∃ v, x = Callback.chunk v := by
  obtain ⟨h2, hall⟩ := runLines_no_stop h
  refine ⟨(runLines (clientLines chunks.flatten)).1, ?_, hall⟩
  rw [streamChat_eq_runAll, runAll]
  rw [if_neg (by simp [h2])]

/-- Witness for C7: a stream cut off before any terminal frame. -/
theorem claim_no_terminal_still_done_witness :
    ∃ cbs, streamChat true ["data: \x7b\"content\":\"hi\"\x7d\n\nxy".data] =
        cbs ++ [Callback.done] ∧ ∀ x ∈ cbs, ∃ v, x = Callback.chunk v :=
  claim_no_terminal_still_done ["data: \x7b\"content\":\"hi\"\x7d\n\nxy".data]
    (by decide)

/-- C8: a complete line that carries the frame marker but unparseable JSON
(or no marker at all) is skipped: no exception is modelled, no callback
fires for it, the stream does not terminate, and surrounding lines are
processed exactly as if the line were absent. -/
theorem claim_malformed_line_skipped (bad : List Char)
    (h : bad.take 6 = "data: ".data → parseJson (bad.drop 6) = none) :
    procLine bad = .skip ∧
      ∀ L1 L2, runLines (L1 ++ bad :: L2) = runLines (L1 ++ L2) := by
  have hskip : procLine bad = .skip := by
    rw [procLine]
    by_cases ht : bad.take 6 = "data: ".data
    · rw [if_pos ht, h ht]
    · rw [if_neg ht]
  refine ⟨hskip, ?_⟩
  intro L1 L2
  induction L1 with
  | nil => simpa using runLines_skip_cons hskip L2
  | cons a L1 ih =>
    rw [List.cons_append, List.cons_append, runLines, runLines]
    rcases hp : procLine a with _ | c | c <;> simp only [] <;>
      first
        | exact ih
        | rw [ih]

/-- Witness for C8 at a concrete malformed line. -/
theorem claim_malformed_line_skipped_witness :
    procLine "data: not json".data = .skip ∧
      ∀ L1 L2, runLines (L1 ++ "data: not json".data :: L2) = runLines (L1 ++ L2) :=
  claim_malformed_line_skipped "data: not json".data (fun _ => rfl)

/-- C9: `getStockQuote` is case-insensitive and total: it agrees with
itself on the uppercased symbol, returns a quote exactly when the
uppercased symbol is a table key, and the table has 25 symbols. -/
theorem claim_quote_case_insensitive (jsSin : ℚ → ℚ) (now : ℚ) (s : String) :
    getStockQuote jsSin now s = getStockQuote jsSin now (jsUpper s) ∧
    ((getStockQuote jsSin now s).isSome = true ↔ jsUpper s ∈ getAllSymbols) ∧
    getAllSymbols.length = 25 :=
  ⟨getStockQuote_upper jsSin now s, getStockQuote_isSome jsSin now s, rfl⟩

/-- C10: per-frame dispatch is by JavaScript truthiness, `done` before
`error` before `content`: a parsed frame whose `done` is false or absent
and whose `error` and `content` are empty strings triggers no callback and
reading continues; the frame with only an empty `error` does not terminate
or invoke `onError`; and a frame carrying both `done` and `error`
dispatches as `done`. -/
theorem claim_truthiness_dispatch :
    (∀ (line : List Char) (j : Json) (rest : List (List Char)),
        line.take 6 = "data: ".data → parseJson (line.drop 6) = some j →
        (jGet j "done" = none ∨ jGet j "done" = some (.bool false)) →
        jGet j "error" = some (.str "") →
        jGet j "content" = some (.str "") →
        runLines (line :: rest) = runLines rest) ∧
    (∀ rest, runLines (("data: \x7b\"error\":\"\"\x7d".data) :: rest) = runLines rest) ∧
    procLine "data: \x7b\"done\":true,\"error\":\"x\"\x7d".data = .stop .done := by
  refine ⟨?_,
    fun rest => @runLines_skip_cons ("data: \x7b\"error\":\"\"\x7d".data) rfl rest, rfl⟩
  intro line j rest h1 h2 hd he hc
  have hskip : procLine line = .skip := by
    rw [procLine, if_pos h1, h2]
    simp only []
    have hd' : jTruthy (jGet j "done") = false := by
      rcases hd with h | h <;> rw [h] <;> rfl
    have he' : jTruthy (jGet j "error") = false := by rw [he]; rfl
    have hc' : jTruthy (jGet j "content") = false := by rw [hc]; rfl
    rw [hd', he', hc']
    simp
  exact runLines_skip_cons hskip rest

/-- Witness for C10 at a concrete all-falsy frame. -/
theorem claim_truthiness_dispatch_witness :
    runLines (["data: \x7b\"done\":false,\"error\":\"\",\"content\":\"\"\x7d".data]) =
      runLines [] :=
  claim_truthiness_dispatch.1
    "data: \x7b\"done\":false,\"error\":\"\",\"content\":\"\"\x7d".data
    (.obj [("done", .bool false), ("error", .str ""), ("content", .str "")])
    [] rfl rfl (Or.inr rfl) rfl rfl

end StockAI
